import Mathlib

/-!
Shallow embedding of the qsim cache simulator (src/qcache/qcache.h).

The embedding models the single-requester behaviour of the template class
`Cache<CPROT_T, WAYS, L2SETS, L2LINESZ, SHARED=false>`: the spin locks are
no-ops for a single requester and are not modelled.  The template's integer
parameters become an explicit `Config` record.  The C++ arrays `tagarray`,
`tsarray` and `tsmax` become total functions `Nat → Nat` (only indices below
`WAYS <<< L2SETS` resp. `1 <<< L2SETS` are ever read or written by the
operations, exactly as in the source).  `addr_t` (`uint64_t`) values are
modelled as `Nat`; all the bit manipulations of the source (`>>`, `<<`, `&`,
`|`) are `Nat.shiftRight`/`Nat.shiftLeft`/`Nat.land`/`Nat.lor`, which agree
with the 64-bit operations on in-range values since none of the source's
operations can overflow 64 bits for the geometries the template admits.
`timestamp_t` is `unsigned`; the source asserts (and aborts) before a
timestamp could ever exceed `TIMESTAMP_MAX = UINT_MAX`, so `Nat` with an
explicit abort at `2 ^ 32 - 1` is an exact model.  The fatal `ASSERT` /
`abort()` is modelled by returning `none`.

Calls into the lower-level device (`lowerLevel->access(...)`) are recorded
in an output list `lowerCalls`; the cache itself never reads anything back
from the lower level, so this captures the whole interaction.
-/

namespace Qcache

/-- `#define TIMESTAMP_MAX UINT_MAX` with `typedef unsigned timestamp_t`. -/
def TIMESTAMP_MAX : Nat := 2 ^ 32 - 1

/-- The mutable state of one `Cache` object (single requester): the three
arrays and the two statistics counters.  Arrays are total functions on
flattened indices, as in the source (`tagarray[set*WAYS + way]`). -/
structure CacheState where
  tagarray : Nat → Nat
  tsarray : Nat → Nat
  tsmax : Nat → Nat
  accesses : Nat
  misses : Nat

/-- `initArrays()` together with the constructor's `accesses(0), misses(0)`:
every array entry is zeroed. -/
def initState : CacheState :=
  ⟨fun _ => 0, fun _ => 0, fun _ => 0, 0, 0⟩

namespace Cache

/-- The three template parameters of `Cache`. -/
structure Config where
  WAYS : Nat
  L2SETS : Nat
  L2LINESZ : Nat

/-- `addr_t stateMask((1<<L2LINESZ)-1)` — the low "state" bits of a tag
array entry; a nonzero state means the line is valid. -/
def stateMask (cfg : Config) : Nat := (1 <<< cfg.L2LINESZ) - 1

/-- `tag(addr>>L2LINESZ)`. -/
def tagOf (cfg : Config) (addr : Nat) : Nat := addr >>> cfg.L2LINESZ

/-- `set(tag%(1<<L2SETS))`. -/
def setOf (cfg : Config) (addr : Nat) : Nat :=
  tagOf cfg addr % (1 <<< cfg.L2SETS)

/-- The hit test of the lookup loop in `access`:
`(tagarray[idx]>>L2LINESZ)==tag && (tagarray[idx]&stateMask)`. -/
def hitAt (cfg : Config) (tagarray : Nat → Nat) (tag idx : Nat) : Prop :=
  tagarray idx >>> cfg.L2LINESZ = tag ∧ tagarray idx &&& stateMask cfg ≠ 0

instance (cfg : Config) (A : Nat → Nat) (tag idx : Nat) :
    Decidable (hitAt cfg A tag idx) := by unfold hitAt; infer_instance

/-- The lookup loop of `access`:
`for (idx = set*WAYS; idx < (set+1)*WAYS; ++idx)`, returning the first
index whose entry matches the tag and has a nonzero state.  `idx` is the
current index and `k` the number of iterations left. -/
def matchLoop (cfg : Config) (A : Nat → Nat) (tag : Nat) :
    Nat → Nat → Option Nat
  | _, 0 => none
  | idx, k + 1 =>
    if hitAt cfg A tag idx then some idx else matchLoop cfg A tag (idx + 1) k

/-- The whole lookup loop, started at `set*WAYS` for `WAYS` iterations. -/
def findMatch (cfg : Config) (A : Nat → Nat) (tag set : Nat) : Option Nat :=
  matchLoop cfg A tag (set * cfg.WAYS) cfg.WAYS

/-- `updateRepl(set, idx)`: asserts `tsmax[set] != TIMESTAMP_MAX` (modelled
as `none`, the source aborts) and then performs
`tsarray[idx] = ++tsmax[set]`. -/
def updateRepl (st : CacheState) (set idx : Nat) : Option CacheState :=
  if st.tsmax set = TIMESTAMP_MAX then none
  else some
    { st with
      tsarray := fun i => if i = idx then st.tsmax set + 1 else st.tsarray i
      tsmax := fun s => if s = set then st.tsmax set + 1 else st.tsmax s }

/-- The loop of `findVictim`:
`for (i = set*WAYS + 1; i < (set+1)*WAYS; ++i)`, carrying `maxIdx` and
`maxTs`; returns `i` as soon as `tagarray[i]` has a zero state, otherwise
updates the running maximum when `tsarray[i] > maxTs`.  `i` is the current
index and `k` the number of iterations left. -/
def victimLoop (cfg : Config) (A ts : Nat → Nat) :
    Nat → Nat → Nat → Nat → Nat
  | 0, _, maxIdx, _ => maxIdx
  | k + 1, i, maxIdx, maxTs =>
    if A i &&& stateMask cfg = 0 then i
    else if maxTs < ts i then victimLoop cfg A ts k (i + 1) i (ts i)
    else victimLoop cfg A ts k (i + 1) maxIdx maxTs

/-- `findVictim(set)`: `maxIdx` starts at `set*WAYS` with
`maxTs = tsarray[set*WAYS]`, and the loop runs over the remaining
`WAYS - 1` slots of the set. -/
def findVictim (cfg : Config) (A ts : Nat → Nat) (set : Nat) : Nat :=
  victimLoop cfg A ts (cfg.WAYS - 1) (set * cfg.WAYS + 1) (set * cfg.WAYS)
    (ts (set * cfg.WAYS))

/-- Result of one `access` call that did not abort: the new cache state,
whether the access hit, and the list of `access(addr, wr)` calls issued to
the lower-level device during the call (in order). -/
structure AccessOut where
  st : CacheState
  hit : Bool
  lowerCalls : List (Nat × Bool)

/-- `Cache::access(addr, wr)` for a single requester (`SHARED=false`; the
spin locks are no-ops).  Steps of the source in order: `++accesses`;
decompose `addr` into `tag` and `set`; scan the set for a valid matching
line — on a hit `updateRepl` and return; otherwise `++misses`, call
`lowerLevel->access(tag<<L2LINESZ, wr)`, pick `findVictim(set)`, call
`updateRepl` on it and install `(tag<<L2LINESZ)|0x01`.  A failed `ASSERT`
inside `updateRepl` is `none`. -/
def access (cfg : Config) (st : CacheState) (addr : Nat) (wr : Bool) :
    Option AccessOut :=
  let st1 := { st with accesses := st.accesses + 1 }
  let tag := tagOf cfg addr
  let set := setOf cfg addr
  match findMatch cfg st1.tagarray tag set with
  | some idx =>
    (updateRepl st1 set idx).map fun st2 => ⟨st2, true, []⟩
  | none =>
    let st2 := { st1 with misses := st1.misses + 1 }
    let idx := findVictim cfg st2.tagarray st2.tsarray set
    (updateRepl st2 set idx).map fun st3 =>
      ⟨{ st3 with
           tagarray := fun i =>
             if i = idx then (tag <<< cfg.L2LINESZ) ||| 1 else st3.tagarray i },
        false, [(tag <<< cfg.L2LINESZ, wr)]⟩

/-- `Cache::invalidate(addr)` for a single requester: zero every entry of
the target set whose tag field equals `addr`'s tag (`tagarray[idx] = 0`
whenever `(tagarray[idx]>>L2LINESZ)==tag`, valid or not).  The second
component is the list of calls made to the lower-level device — the source
body contains none, and the counters are untouched. -/
def invalidate (cfg : Config) (st : CacheState) (addr : Nat) :
    CacheState × List (Nat × Bool) :=
  let tag := tagOf cfg addr
  let set := setOf cfg addr
  ({ st with
      tagarray := fun i =>
        if set * cfg.WAYS ≤ i ∧ i < set * cfg.WAYS + cfg.WAYS ∧
            st.tagarray i >>> cfg.L2LINESZ = tag
        then 0 else st.tagarray i },
   [])

/-- One externally visible operation on a cache unit. -/
inductive Op where
  | acc (addr : Nat) (wr : Bool)
  | inv (addr : Nat)

/-- One operation applied to a state (`none` = the source aborted). -/
def step (cfg : Config) (st : CacheState) : Op → Option CacheState
  | .acc a w => (access cfg st a w).map AccessOut.st
  | .inv a => some (invalidate cfg st a).1

/-- A whole call sequence. -/
def run (cfg : Config) (st : CacheState) : List Op → Option CacheState
  | [] => some st
  | o :: os => (step cfg st o).bind fun st1 => run cfg st1 os

/-- A sequence of `access` calls, additionally collecting the hit/miss
outcome of each call. -/
def runAcc (cfg : Config) (st : CacheState) :
    List (Nat × Bool) → Option (CacheState × List Bool)
  | [] => some (st, [])
  | (a, w) :: rest =>
    (access cfg st a w).bind fun out =>
      (runAcc cfg out.st rest).map fun p => (p.1, out.hit :: p.2)

end Cache

namespace Tracer

/-- `struct InvalidAccess {}` — what `Tracer::invalidate` throws. -/
structure InvalidAccess where

/-- `Tracer::access(addr, wr)`:
`tracefile << std::dec << addr << (wr?" W\n":" R\n")` — the stream contents
after the call, with `std::dec` rendering the address in decimal. -/
def access (tracefile : String) (addr : Nat) (wr : Bool) : String :=
  tracefile ++ Nat.repr addr ++ (if wr then " W\n" else " R\n")

/-- `Tracer::invalidate(addr)`: `throw InvalidAccess()`. -/
def invalidate (addr : Nat) : Except InvalidAccess Unit :=
  .error ⟨⟩

end Tracer

namespace Cache

theorem access_hit_eq (cfg : Config) (st : CacheState) (addr : Nat) (wr : Bool) (idx : Nat)
    (hm : findMatch cfg st.tagarray (tagOf cfg addr) (setOf cfg addr) = some idx) :
    access cfg st addr wr =
      (updateRepl { st with accesses := st.accesses + 1 } (setOf cfg addr) idx).map
        (fun st2 => ⟨st2, true, []⟩) := by
  unfold access
  dsimp only
  rw [hm]

theorem access_miss_eq (cfg : Config) (st : CacheState) (addr : Nat) (wr : Bool)
    (hm : findMatch cfg st.tagarray (tagOf cfg addr) (setOf cfg addr) = none) :
    access cfg st addr wr =
      (updateRepl { st with accesses := st.accesses + 1, misses := st.misses + 1 }
          (setOf cfg addr)
          (findVictim cfg st.tagarray st.tsarray (setOf cfg addr))).map
        (fun st3 =>
          ⟨{ st3 with
               tagarray := fun i =>
                 if i = findVictim cfg st.tagarray st.tsarray (setOf cfg addr) then
                   (tagOf cfg addr <<< cfg.L2LINESZ) ||| 1
                 else st3.tagarray i },
            false, [(tagOf cfg addr <<< cfg.L2LINESZ, wr)]⟩) := by
  unfold access
  dsimp only
  rw [hm]

theorem updateRepl_eq_none (st : CacheState) (set idx : Nat)
    (h : st.tsmax set = TIMESTAMP_MAX) :
    updateRepl st set idx = none := by
  unfold updateRepl
  rw [if_pos h]

theorem updateRepl_eq_some (st : CacheState) (set idx : Nat)
    (h : st.tsmax set ≠ TIMESTAMP_MAX) :
    updateRepl st set idx = some
      { st with
        tsarray := fun i => if i = idx then st.tsmax set + 1 else st.tsarray i
        tsmax := fun s => if s = set then st.tsmax set + 1 else st.tsmax s } := by
  unfold updateRepl
  rw [if_neg h]

/-- The geometry of claim C3: `WAYS = 1`, `L2SETS = 0` (one set),
`L2LINESZ = 6` (64-byte lines). -/
def cfgC3 : Config := ⟨1, 0, 6⟩

/-- The geometry of claim C1: `WAYS = 2`, one set, 64-byte lines. -/
def cfgC1 : Config := ⟨2, 0, 6⟩

end Cache

end Qcache

namespace Qcache.Cache

/-- C3: on a freshly constructed cache with 1 way, 1 set and 64-byte lines,
the call sequence `access(0,false)`, `access(0,false)`, `access(64,false)`,
`access(0,false)` produces the outcomes miss, hit, miss, miss and finishes
with `accesses = 4` and `misses = 3`. -/
theorem C3_end_to_end_scenario :
    (runAcc cfgC3 initState [(0, false), (0, false), (64, false), (0, false)]).map
      (fun p => (p.2, p.1.accesses, p.1.misses)) =
      some ([false, true, false, false], 4, 3) := rfl

/-- C1 (evaluation of the code at the failing input): with `WAYS = 2`, one
set and 64-byte lines, the addresses 64 (A), 128 (B), 64 (A), 192 (C) all
map to set 0 with the pairwise distinct tags 1, 2, 1, 3.  Contrary to the
claim, every one of the four accesses misses (even the re-access of A), way
0 of the set is never filled (`tagarray 0 = 0` throughout), and:
after A, B, A the set's only resident line is A's (`tagarray 1 >>> 6 = 1`),
i.e. B's line has already been evicted by A's re-install; C's installation
then overwrites that slot (`tagarray 1 >>> 6 = 3`), so C evicts A's line,
not B's.  The cause is `findVictim`: its loop starts at `set*WAYS + 1`, so
it never tests way 0 for invalidity, and among valid slots it returns the
slot with the *maximum* timestamp — the most recently used line — although
the timestamps are maintained for an LRU approximation. -/
theorem C1_code_bug_eval :
    (runAcc cfgC1 initState [(64, false), (128, false), (64, false)]).map
        (fun p => (p.2, p.1.tagarray 0, p.1.tagarray 1 >>> 6)) =
      some ([false, false, false], 0, 1) ∧
    (runAcc cfgC1 initState [(64, false), (128, false), (64, false), (192, false)]).map
        (fun p => (p.2, p.1.tagarray 0, p.1.tagarray 1 >>> 6)) =
      some ([false, false, false, false], 0, 3) :=
  ⟨rfl, rfl⟩

/-- C9: `Tracer.access` appends to the stream exactly one textual record —
the decimal address, then `" W"` for a write or `" R"` for a read, then the
record-terminating newline — and `Tracer.invalidate` always signals
`InvalidAccess`, for every address. -/
theorem C9_tracer_record_and_invalidate_throws :
    (∀ (tracefile : String) (addr : Nat) (wr : Bool),
      Tracer.access tracefile addr wr =
        tracefile ++ (Nat.repr addr ++ (if wr then " W" else " R") ++ "\n")) ∧
    (∀ addr : Nat, Tracer.invalidate addr = Except.error ⟨⟩) := by
  constructor
  · intro tracefile addr wr
    cases wr <;> simp [Tracer.access, String.append_assoc]
  · intro addr
    rfl

/-- C5: an `access` that misses issues exactly one `access` call on the
lower-level device, whose address is the block-aligned address — the
original address with its low `L2LINESZ` offset bits cleared — independent
of the sub-block offset; an `access` that hits issues no lower-level call. -/
theorem C5_miss_propagation (cfg : Config) (st : CacheState) (addr : Nat) (wr : Bool)
    (out : AccessOut) (h : access cfg st addr wr = some out) :
    (out.hit = true → out.lowerCalls = []) ∧
    (out.hit = false →
      out.lowerCalls = [(addr / 2 ^ cfg.L2LINESZ * 2 ^ cfg.L2LINESZ, wr)] ∧
      addr / 2 ^ cfg.L2LINESZ * 2 ^ cfg.L2LINESZ = addr - addr % 2 ^ cfg.L2LINESZ) := by
  have halign : tagOf cfg addr <<< cfg.L2LINESZ =
      addr / 2 ^ cfg.L2LINESZ * 2 ^ cfg.L2LINESZ := by
    rw [Nat.shiftLeft_eq, tagOf, Nat.shiftRight_eq_div_pow]
  have hsub : addr / 2 ^ cfg.L2LINESZ * 2 ^ cfg.L2LINESZ =
      addr - addr % 2 ^ cfg.L2LINESZ := by
    have h2 := Nat.div_add_mod addr (2 ^ cfg.L2LINESZ)
    rw [Nat.mul_comm] at h2
    exact Nat.eq_sub_of_add_eq h2
  cases hm : findMatch cfg st.tagarray (tagOf cfg addr) (setOf cfg addr) with
  | some idx =>
    rw [access_hit_eq cfg st addr wr idx hm] at h
    rcases Option.map_eq_some'.mp h with ⟨st2, _, hout⟩
    subst hout
    exact ⟨fun _ => rfl, fun hfalse => by simp at hfalse⟩
  | none =>
    rw [access_miss_eq cfg st addr wr hm] at h
    rcases Option.map_eq_some'.mp h with ⟨st3, _, hout⟩
    subst hout
    refine ⟨fun htrue => by simp at htrue, fun _ => ⟨?_, hsub⟩⟩
    show [(tagOf cfg addr <<< cfg.L2LINESZ, wr)] = _
    rw [halign]

/-- C6: an `access` whose target set's timestamp counter is below
`TIMESTAMP_MAX` succeeds and increases that counter by exactly one (both on
a hit and on a miss, since both paths run `updateRepl` on the set); when
the counter has reached `TIMESTAMP_MAX`, the access fails the assertion in
`updateRepl` and aborts (modelled by `none`) instead of wrapping. -/
theorem C6_timestamp_increase_and_overflow_abort (cfg : Config) (st : CacheState)
    (addr : Nat) (wr : Bool) :
    (st.tsmax (setOf cfg addr) < TIMESTAMP_MAX →
      ∃ out, access cfg st addr wr = some out ∧
        out.st.tsmax (setOf cfg addr) = st.tsmax (setOf cfg addr) + 1) ∧
    (st.tsmax (setOf cfg addr) = TIMESTAMP_MAX →
      access cfg st addr wr = none) := by
  constructor
  · intro hlt
    have hne : st.tsmax (setOf cfg addr) ≠ TIMESTAMP_MAX := Nat.ne_of_lt hlt
    cases hm : findMatch cfg st.tagarray (tagOf cfg addr) (setOf cfg addr) with
    | some idx =>
      rw [access_hit_eq cfg st addr wr idx hm,
        updateRepl_eq_some { st with accesses := st.accesses + 1 } _ _ hne]
      exact ⟨_, rfl, by simp⟩
    | none =>
      rw [access_miss_eq cfg st addr wr hm,
        updateRepl_eq_some
          { st with accesses := st.accesses + 1, misses := st.misses + 1 } _ _ hne]
      exact ⟨_, rfl, by simp⟩
  · intro heq
    cases hm : findMatch cfg st.tagarray (tagOf cfg addr) (setOf cfg addr) with
    | some idx =>
      rw [access_hit_eq cfg st addr wr idx hm,
        updateRepl_eq_none { st with accesses := st.accesses + 1 } _ _ heq]
      rfl
    | none =>
      rw [access_miss_eq cfg st addr wr hm,
        updateRepl_eq_none
          { st with accesses := st.accesses + 1, misses := st.misses + 1 } _ _ heq]
      rfl

/-- C8: when an `access` hits (the lookup finds a valid slot `idx` with the
matching tag), the only changes are the matched slot's recency timestamp,
the target set's timestamp counter and the `accesses` counter: the whole
tag array, the `misses` counter, every other set's counter, every other
slot's timestamp, and the lower-level device (no calls) are unchanged. -/
theorem C8_hit_frame (cfg : Config) (st : CacheState) (addr : Nat) (wr : Bool)
    (idx : Nat) (out : AccessOut)
    (hm : findMatch cfg st.tagarray (tagOf cfg addr) (setOf cfg addr) = some idx)
    (h : access cfg st addr wr = some out) :
    out.hit = true ∧
    out.lowerCalls = [] ∧
    (∀ i, out.st.tagarray i = st.tagarray i) ∧
    out.st.misses = st.misses ∧
    out.st.accesses = st.accesses + 1 ∧
    (∀ s, s ≠ setOf cfg addr → out.st.tsmax s = st.tsmax s) ∧
    (∀ i, i ≠ idx → out.st.tsarray i = st.tsarray i) ∧
    out.st.tsarray idx = st.tsmax (setOf cfg addr) + 1 ∧
    out.st.tsmax (setOf cfg addr) = st.tsmax (setOf cfg addr) + 1 := by
  rw [access_hit_eq cfg st addr wr idx hm] at h
  rcases Option.map_eq_some'.mp h with ⟨st2, hu, hout⟩
  subst hout
  have hne : st.tsmax (setOf cfg addr) ≠ TIMESTAMP_MAX := by
    intro heq
    rw [updateRepl_eq_none { st with accesses := st.accesses + 1 } _ _ heq] at hu
    exact Option.noConfusion hu
  rw [updateRepl_eq_some { st with accesses := st.accesses + 1 } _ _ hne] at hu
  have hst2 := Option.some.inj hu
  subst hst2
  refine ⟨rfl, rfl, fun i => rfl, rfl, rfl, ?_, ?_, by simp, by simp⟩
  · intro s hs
    simp [hs]
  · intro i hi
    simp [hi]

theorem matchLoop_eq_none (cfg : Config) (A : Nat → Nat) (tag : Nat) :
    ∀ (k idx : Nat), (∀ j, j < k → ¬ hitAt cfg A tag (idx + j)) →
      matchLoop cfg A tag idx k = none
  | 0, _, _ => rfl
  | k + 1, idx, h => by
    unfold matchLoop
    rw [if_neg (by simpa using h 0 (Nat.succ_pos k))]
    refine matchLoop_eq_none cfg A tag k (idx + 1) ?_
    intro j hj
    have h2 := h (j + 1) (Nat.succ_lt_succ hj)
    have h3 : idx + (j + 1) = idx + 1 + j := by omega
    rwa [h3] at h2

theorem matchLoop_none_elim (cfg : Config) (A : Nat → Nat) (tag : Nat) :
    ∀ (k idx : Nat), matchLoop cfg A tag idx k = none →
      ∀ j, j < k → ¬ hitAt cfg A tag (idx + j)
  | 0, _, _, j, hj => absurd hj (Nat.not_lt_zero j)
  | k + 1, idx, h, j, hj => by
    unfold matchLoop at h
    by_cases hh : hitAt cfg A tag idx
    · rw [if_pos hh] at h
      exact Option.noConfusion h
    · rw [if_neg hh] at h
      match j with
      | 0 => simpa using hh
      | j + 1 =>
        have h2 := matchLoop_none_elim cfg A tag k (idx + 1) h j
          (Nat.lt_of_succ_lt_succ hj)
        have h3 : idx + (j + 1) = idx + 1 + j := by omega
        rwa [h3]

theorem matchLoop_some_of_hit (cfg : Config) (A : Nat → Nat) (tag : Nat) :
    ∀ (k idx j : Nat), j < k → hitAt cfg A tag (idx + j) →
      ∃ r, matchLoop cfg A tag idx k = some r
  | 0, _, j, hj, _ => absurd hj (Nat.not_lt_zero j)
  | k + 1, idx, j, hj, hh => by
    unfold matchLoop
    by_cases h0 : hitAt cfg A tag idx
    · exact ⟨idx, by rw [if_pos h0]⟩
    · rw [if_neg h0]
      match j with
      | 0 => exact absurd (by simpa using hh) h0
      | j + 1 =>
        have h3 : idx + (j + 1) = idx + 1 + j := by omega
        rw [h3] at hh
        exact matchLoop_some_of_hit cfg A tag k (idx + 1) j
          (Nat.lt_of_succ_lt_succ hj) hh

/-- What `invalidate` does to one tag array entry. -/
theorem invalidate_tagarray (cfg : Config) (st : CacheState) (X i : Nat) :
    (invalidate cfg st X).1.tagarray i =
      if setOf cfg X * cfg.WAYS ≤ i ∧ i < setOf cfg X * cfg.WAYS + cfg.WAYS ∧
          st.tagarray i >>> cfg.L2LINESZ = tagOf cfg X
      then 0 else st.tagarray i := rfl

/-- C4: `invalidate(X)` zeroes exactly the slots of `X`'s set whose tag
field matches `X`'s tag (valid bit or not), leaves every other tag entry,
all the replacement metadata and both counters unchanged, and makes no
lower-level call; afterwards `access(X, _)` misses, while any tag other
than `X`'s that was validly resident in the same set still hits when
re-accessed. -/
theorem C4_invalidate_contract (cfg : Config) (st : CacheState) (X : Nat) :
    (∀ i, setOf cfg X * cfg.WAYS ≤ i → i < setOf cfg X * cfg.WAYS + cfg.WAYS →
      st.tagarray i >>> cfg.L2LINESZ = tagOf cfg X →
      (invalidate cfg st X).1.tagarray i = 0) ∧
    (∀ i, ¬(setOf cfg X * cfg.WAYS ≤ i ∧ i < setOf cfg X * cfg.WAYS + cfg.WAYS ∧
        st.tagarray i >>> cfg.L2LINESZ = tagOf cfg X) →
      (invalidate cfg st X).1.tagarray i = st.tagarray i) ∧
    (invalidate cfg st X).1.accesses = st.accesses ∧
    (invalidate cfg st X).1.misses = st.misses ∧
    (invalidate cfg st X).1.tsarray = st.tsarray ∧
    (invalidate cfg st X).1.tsmax = st.tsmax ∧
    (invalidate cfg st X).2 = [] ∧
    (∀ wr out, access cfg (invalidate cfg st X).1 X wr = some out →
      out.hit = false) ∧
    (∀ Y wr out, tagOf cfg Y ≠ tagOf cfg X → setOf cfg Y = setOf cfg X →
      (∃ j, j < cfg.WAYS ∧
        hitAt cfg st.tagarray (tagOf cfg Y) (setOf cfg X * cfg.WAYS + j)) →
      access cfg (invalidate cfg st X).1 Y wr = some out → out.hit = true) := by
  refine ⟨?_, ?_, rfl, rfl, rfl, rfl, rfl, ?_, ?_⟩
  · intro i h1 h2 h3
    rw [invalidate_tagarray, if_pos ⟨h1, h2, h3⟩]
  · intro i h1
    rw [invalidate_tagarray, if_neg h1]
  · intro wr out h
    have hm : findMatch cfg (invalidate cfg st X).1.tagarray (tagOf cfg X)
        (setOf cfg X) = none := by
      refine matchLoop_eq_none cfg _ _ cfg.WAYS _ ?_
      intro j hj
      intro hh
      rcases hh with ⟨htag, hvalid⟩
      rw [invalidate_tagarray] at htag hvalid
      by_cases hc : setOf cfg X * cfg.WAYS ≤ setOf cfg X * cfg.WAYS + j ∧
          setOf cfg X * cfg.WAYS + j < setOf cfg X * cfg.WAYS + cfg.WAYS ∧
          st.tagarray (setOf cfg X * cfg.WAYS + j) >>> cfg.L2LINESZ = tagOf cfg X
      · rw [if_pos hc] at hvalid
        exact hvalid (Nat.zero_and _)
      · rw [if_neg hc] at htag
        exact hc ⟨Nat.le_add_right _ _, by omega, htag⟩
    rw [access_miss_eq cfg _ X wr hm] at h
    rcases Option.map_eq_some'.mp h with ⟨st3, _, hout⟩
    subst hout
    rfl
  · intro Y wr out hY1 hY2 hY3 h
    rcases hY3 with ⟨j, hj, hh⟩
    have hh2 : hitAt cfg (invalidate cfg st X).1.tagarray (tagOf cfg Y)
        (setOf cfg X * cfg.WAYS + j) := by
      have hne : ¬(setOf cfg X * cfg.WAYS ≤ setOf cfg X * cfg.WAYS + j ∧
          setOf cfg X * cfg.WAYS + j < setOf cfg X * cfg.WAYS + cfg.WAYS ∧
          st.tagarray (setOf cfg X * cfg.WAYS + j) >>> cfg.L2LINESZ = tagOf cfg X) := by
        intro hc
        exact hY1 (hh.1 ▸ hc.2.2)
      rcases hh with ⟨htag, hvalid⟩
      exact ⟨by rw [invalidate_tagarray, if_neg hne]; exact htag,
        by rw [invalidate_tagarray, if_neg hne]; exact hvalid⟩
    have hm : ∃ r, findMatch cfg (invalidate cfg st X).1.tagarray (tagOf cfg Y)
        (setOf cfg Y) = some r := by
      rw [hY2]
      exact matchLoop_some_of_hit cfg _ _ cfg.WAYS _ j hj hh2
    rcases hm with ⟨r, hm⟩
    rw [access_hit_eq cfg _ Y wr r hm] at h
    rcases Option.map_eq_some'.mp h with ⟨st2, _, hout⟩
    subst hout
    rfl

/-- C10: the cache's own resulting state (tag array, timestamps, set
counters, `accesses`, `misses`), the abort behaviour and the hit/miss
outcome of `access(addr, wr)` are identical for `wr = true` and
`wr = false`; the flag is only passed through, unchanged, in the one
lower-level call made on a miss (`invalidate` takes no write flag at
all). -/
theorem C10_write_flag_noninterference (cfg : Config) (st : CacheState) (addr : Nat) :
    ((access cfg st addr true).map (fun o => (o.st, o.hit)) =
      (access cfg st addr false).map (fun o => (o.st, o.hit))) ∧
    (∀ o1 o2, access cfg st addr true = some o1 → access cfg st addr false = some o2 →
      o1.lowerCalls.map Prod.fst = o2.lowerCalls.map Prod.fst ∧
      (∀ c ∈ o1.lowerCalls, c.2 = true) ∧
      (∀ c ∈ o2.lowerCalls, c.2 = false)) := by
  cases hm : findMatch cfg st.tagarray (tagOf cfg addr) (setOf cfg addr) with
  | some idx =>
    rw [access_hit_eq cfg st addr true idx hm, access_hit_eq cfg st addr false idx hm]
    refine ⟨rfl, ?_⟩
    intro o1 o2 h1 h2
    rcases Option.map_eq_some'.mp h1 with ⟨s1, _, hout1⟩
    rcases Option.map_eq_some'.mp h2 with ⟨s2, _, hout2⟩
    subst hout1
    subst hout2
    exact ⟨rfl, by intro c hc; simp at hc, by intro c hc; simp at hc⟩
  | none =>
    rw [access_miss_eq cfg st addr true hm, access_miss_eq cfg st addr false hm]
    constructor
    · cases updateRepl
        { st with accesses := st.accesses + 1, misses := st.misses + 1 }
        (setOf cfg addr) (findVictim cfg st.tagarray st.tsarray (setOf cfg addr)) with
      | none => rfl
      | some st3 => rfl
    · intro o1 o2 h1 h2
      rcases Option.map_eq_some'.mp h1 with ⟨s1, hu1, hout1⟩
      rcases Option.map_eq_some'.mp h2 with ⟨s2, hu2, hout2⟩
      subst hout1
      subst hout2
      refine ⟨rfl, ?_, ?_⟩
      · intro c hc
        simp at hc
        rw [hc]
      · intro c hc
        simp at hc
        rw [hc]

theorem victimLoop_first_invalid (cfg : Config) (A ts : Nat → Nat) :
    ∀ (k i maxIdx maxTs j : Nat), j < k → A (i + j) &&& stateMask cfg = 0 →
      (∀ j2, j2 < j → A (i + j2) &&& stateMask cfg ≠ 0) →
      victimLoop cfg A ts k i maxIdx maxTs = i + j
  | 0, _, _, _, j, hj, _, _ => absurd hj (Nat.not_lt_zero j)
  | k + 1, i, maxIdx, maxTs, j, hj, hinv, hval => by
    unfold victimLoop
    match j with
    | 0 =>
      rw [if_pos (by simpa using hinv)]
      simp
    | j + 1 =>
      rw [if_neg (by simpa using hval 0 (Nat.succ_pos j))]
      have h3 : i + (j + 1) = i + 1 + j := by omega
      have hinv2 : A (i + 1 + j) &&& stateMask cfg = 0 := by rwa [h3] at hinv
      have hval2 : ∀ j2, j2 < j → A (i + 1 + j2) &&& stateMask cfg ≠ 0 := by
        intro j2 hj2
        have h4 := hval (j2 + 1) (Nat.succ_lt_succ hj2)
        have h5 : i + (j2 + 1) = i + 1 + j2 := by omega
        rwa [h5] at h4
      have hjk : j < k := Nat.lt_of_succ_lt_succ hj
      by_cases hc : maxTs < ts i
      · rw [if_pos hc, victimLoop_first_invalid cfg A ts k (i + 1) i (ts i) j hjk hinv2 hval2]
        omega
      · rw [if_neg hc, victimLoop_first_invalid cfg A ts k (i + 1) maxIdx maxTs j hjk hinv2 hval2]
        omega

theorem victimLoop_all_valid (cfg : Config) (A ts : Nat → Nat) (base : Nat) :
    ∀ (k i maxIdx maxTs : Nat),
      (∀ j, j < k → A (i + j) &&& stateMask cfg ≠ 0) →
      base ≤ maxIdx → maxIdx < i → maxTs = ts maxIdx →
      (∀ p, base ≤ p → p < i → ts p ≤ maxTs) →
      (∀ p, base ≤ p → p < maxIdx → ts p < maxTs) →
      base ≤ victimLoop cfg A ts k i maxIdx maxTs ∧
      victimLoop cfg A ts k i maxIdx maxTs < i + k ∧
      (∀ p, base ≤ p → p < i + k →
        ts p ≤ ts (victimLoop cfg A ts k i maxIdx maxTs)) ∧
      (∀ p, base ≤ p → p < victimLoop cfg A ts k i maxIdx maxTs →
        ts p < ts (victimLoop cfg A ts k i maxIdx maxTs))
  | 0, i, maxIdx, maxTs, _, hb, hi, hts, hle, hlt => by
    unfold victimLoop
    subst hts
    exact ⟨hb, by omega, fun p hp1 hp2 => hle p hp1 (by omega),
      fun p hp1 hp2 => hlt p hp1 hp2⟩
  | k + 1, i, maxIdx, maxTs, hv, hb, hi, hts, hle, hlt => by
    unfold victimLoop
    rw [if_neg (by simpa using hv 0 (Nat.succ_pos k))]
    have hv2 : ∀ j, j < k → A (i + 1 + j) &&& stateMask cfg ≠ 0 := by
      intro j hj
      have h4 := hv (j + 1) (Nat.succ_lt_succ hj)
      have h5 : i + (j + 1) = i + 1 + j := by omega
      rwa [h5] at h4
    by_cases hc : maxTs < ts i
    · rw [if_pos hc]
      have h6 := victimLoop_all_valid cfg A ts base k (i + 1) i (ts i) hv2
        (by omega) (by omega) rfl
        (by
          intro p hp1 hp2
          rcases Nat.lt_or_ge p i with hp3 | hp3
          · exact Nat.le_of_lt (Nat.lt_of_le_of_lt (hts ▸ hle p hp1 hp3) hc)
          · have : p = i := by omega
            rw [this])
        (by
          intro p hp1 hp2
          exact Nat.lt_of_le_of_lt (hts ▸ hle p hp1 hp2) hc)
      refine ⟨h6.1, by have := h6.2.1; omega, fun p hp1 hp2 => ?_, h6.2.2.2⟩
      exact h6.2.2.1 p hp1 (by omega)
    · rw [if_neg hc]
      have h6 := victimLoop_all_valid cfg A ts base k (i + 1) maxIdx maxTs hv2
        hb (by omega) hts
        (by
          intro p hp1 hp2
          rcases Nat.lt_or_ge p i with hp3 | hp3
          · exact hle p hp1 hp3
          · have : p = i := by omega
            rw [this]
            omega
          )
        hlt
      refine ⟨h6.1, by have := h6.2.1; omega, fun p hp1 hp2 => ?_, h6.2.2.2⟩
      exact h6.2.2.1 p hp1 (by omega)

/-- A concrete 2-way set refuting C2 as stated: way 0 is empty (state bits
zero) and way 1 holds a valid line with timestamp 1. -/
def stWayZeroEmpty : CacheState :=
  ⟨fun i => if i = 1 then 65 else 0, fun i => if i = 1 then 1 else 0,
   fun _ => 0, 0, 0⟩

/-- C2 counterexample: in a 2-way set whose first (and only) invalid slot
is way 0 — `tagarray 0` has zero state bits while way 1 is valid —
`findVictim` does not return way 0 as the claim states: it returns the
valid way 1 (way 1 has the maximal timestamp and way 0's valid bit is
never examined). -/
theorem C2_counterexample_way_zero :
    stWayZeroEmpty.tagarray 0 &&& stateMask cfgC1 = 0 ∧
    stWayZeroEmpty.tagarray 1 &&& stateMask cfgC1 ≠ 0 ∧
    findVictim cfgC1 stWayZeroEmpty.tagarray stWayZeroEmpty.tsarray 0 = 1 := by
  refine ⟨by decide, by decide, by decide⟩

/-- C2 amended: `findVictim(set)` scans only ways `1 .. WAYS-1` for an
invalid slot and returns the first one found; way 0's valid bit is never
examined.  If every slot among ways `1 .. WAYS-1` is valid, it returns the
slot of the set (way 0 included) carrying the maximum recency timestamp,
taking the earliest such slot on ties. -/
theorem C2_findVictim_amended (cfg : Config) (st : CacheState) (set : Nat) :
    (∀ w, 1 ≤ w → w < cfg.WAYS →
      st.tagarray (set * cfg.WAYS + w) &&& stateMask cfg = 0 →
      (∀ w2, 1 ≤ w2 → w2 < w →
        st.tagarray (set * cfg.WAYS + w2) &&& stateMask cfg ≠ 0) →
      findVictim cfg st.tagarray st.tsarray set = set * cfg.WAYS + w) ∧
    (1 ≤ cfg.WAYS →
      (∀ w, 1 ≤ w → w < cfg.WAYS →
        st.tagarray (set * cfg.WAYS + w) &&& stateMask cfg ≠ 0) →
      set * cfg.WAYS ≤ findVictim cfg st.tagarray st.tsarray set ∧
      findVictim cfg st.tagarray st.tsarray set < set * cfg.WAYS + cfg.WAYS ∧
      (∀ w, w < cfg.WAYS →
        st.tsarray (set * cfg.WAYS + w) ≤
          st.tsarray (findVictim cfg st.tagarray st.tsarray set)) ∧
      (∀ w, w < cfg.WAYS →
        set * cfg.WAYS + w < findVictim cfg st.tagarray st.tsarray set →
        st.tsarray (set * cfg.WAYS + w) <
          st.tsarray (findVictim cfg st.tagarray st.tsarray set))) := by
  constructor
  · intro w hw1 hw2 hinv hval
    unfold findVictim
    have h1 : set * cfg.WAYS + w = set * cfg.WAYS + 1 + (w - 1) := by omega
    rw [h1] at hinv ⊢
    refine victimLoop_first_invalid cfg st.tagarray st.tsarray (cfg.WAYS - 1)
      (set * cfg.WAYS + 1) (set * cfg.WAYS) (st.tsarray (set * cfg.WAYS))
      (w - 1) (by omega) hinv ?_
    intro j2 hj2
    have h2 := hval (j2 + 1) (by omega) (by omega)
    have h3 : set * cfg.WAYS + (j2 + 1) = set * cfg.WAYS + 1 + j2 := by omega
    rwa [h3] at h2
  · intro hW hval
    unfold findVictim
    have h6 := victimLoop_all_valid cfg st.tagarray st.tsarray (set * cfg.WAYS)
      (cfg.WAYS - 1) (set * cfg.WAYS + 1) (set * cfg.WAYS)
      (st.tsarray (set * cfg.WAYS))
      (by
        intro j hj
        have h2 := hval (j + 1) (by omega) (by omega)
        have h3 : set * cfg.WAYS + (j + 1) = set * cfg.WAYS + 1 + j := by omega
        rwa [h3] at h2)
      (Nat.le_refl _) (by omega) rfl
      (by intro p hp1 hp2; have : p = set * cfg.WAYS := by omega
          rw [this])
      (by intro p hp1 hp2; omega)
    refine ⟨h6.1, by have := h6.2.1; omega, fun w hw => ?_, fun w hw hlt => ?_⟩
    · exact h6.2.2.1 (set * cfg.WAYS + w) (by omega) (by omega)
    · exact h6.2.2.2 (set * cfg.WAYS + w) (by omega) hlt

/-- Instantiation of the amended C2 on a concrete input: in a freshly
initialized 2-way set (both slots invalid), the scan returns way 1 — the
first invalid slot it examines. -/
theorem C2_findVictim_amended_witness :
    findVictim cfgC1 initState.tagarray initState.tsarray 0 = 0 * cfgC1.WAYS + 1 :=
  (C2_findVictim_amended cfgC1 initState 0).1 1 (by decide) (by decide) (by decide)
    (fun w2 h1 h2 => absurd (Nat.lt_of_lt_of_le h2 h1) (Nat.lt_irrefl w2))

/-- Tag `t` is validly resident in slot `i` of set `s`: `i` is one of the
set's `WAYS` slots, its tag field is `t` and its state bits are nonzero. -/
def residentTag (cfg : Config) (st : CacheState) (s t i : Nat) : Prop :=
  s * cfg.WAYS ≤ i ∧ i < s * cfg.WAYS + cfg.WAYS ∧
  st.tagarray i >>> cfg.L2LINESZ = t ∧ st.tagarray i &&& stateMask cfg ≠ 0

/-- No tag is validly resident in two distinct slots of its set. -/
def NoDupResidency (cfg : Config) (st : CacheState) : Prop :=
  ∀ s t i j, residentTag cfg st s t i → residentTag cfg st s t j → i = j

theorem two_mul_lor_one (k : Nat) : 2 * k ||| 1 = 2 * k + 1 := by
  have h1 : (1 : Nat) = Nat.bit true 0 := by simp [Nat.bit]
  have h2 : 2 * k = Nat.bit false k := by simp [Nat.bit, Nat.mul_comm]
  rw [h1, h2, Nat.lor_bit]
  simp [Nat.bit, Nat.mul_comm]

/-- The value installed on a miss, with at least one line-offset bit. -/
theorem install_eq (cfg : Config) (tag : Nat) (hL : cfg.L2LINESZ ≠ 0) :
    (tag <<< cfg.L2LINESZ) ||| 1 = tag * 2 ^ cfg.L2LINESZ + 1 := by
  obtain ⟨l, hl⟩ : ∃ l, cfg.L2LINESZ = l + 1 := ⟨cfg.L2LINESZ - 1, by omega⟩
  rw [Nat.shiftLeft_eq, hl]
  have h2 : tag * 2 ^ (l + 1) = 2 * (tag * 2 ^ l) := by ring
  rw [h2, two_mul_lor_one]

theorem install_shiftRight (cfg : Config) (tag : Nat) (hL : cfg.L2LINESZ ≠ 0) :
    ((tag <<< cfg.L2LINESZ) ||| 1) >>> cfg.L2LINESZ = tag := by
  rw [install_eq cfg tag hL, Nat.shiftRight_eq_div_pow]
  have hpow : 1 < 2 ^ cfg.L2LINESZ := by
    have : 2 ^ 1 ≤ 2 ^ cfg.L2LINESZ := Nat.pow_le_pow_right (by omega) (by omega)
    omega
  rw [Nat.add_comm, Nat.add_mul_div_right 1 tag (by omega : 0 < 2 ^ cfg.L2LINESZ),
    Nat.div_eq_of_lt hpow]
  omega

theorem install_valid (cfg : Config) (tag : Nat) (hL : cfg.L2LINESZ ≠ 0) :
    ((tag <<< cfg.L2LINESZ) ||| 1) &&& stateMask cfg ≠ 0 := by
  rw [install_eq cfg tag hL, stateMask, Nat.one_shiftLeft,
    Nat.and_pow_two_sub_one_eq_mod, Nat.mul_comm tag (2 ^ cfg.L2LINESZ),
    Nat.mul_add_mod]
  have hpow : 1 < 2 ^ cfg.L2LINESZ := by
    have : 2 ^ 1 ≤ 2 ^ cfg.L2LINESZ := Nat.pow_le_pow_right (by omega) (by omega)
    omega
  rw [Nat.mod_eq_of_lt hpow]
  exact Nat.one_ne_zero

theorem victimLoop_mem (cfg : Config) (A ts : Nat → Nat) :
    ∀ (k i maxIdx maxTs : Nat),
      victimLoop cfg A ts k i maxIdx maxTs = maxIdx ∨
      ∃ j, j < k ∧ victimLoop cfg A ts k i maxIdx maxTs = i + j
  | 0, _, _, _ => Or.inl rfl
  | k + 1, i, maxIdx, maxTs => by
    unfold victimLoop
    by_cases h0 : A i &&& stateMask cfg = 0
    · rw [if_pos h0]
      exact Or.inr ⟨0, Nat.succ_pos k, by omega⟩
    · rw [if_neg h0]
      by_cases hc : maxTs < ts i
      · rw [if_pos hc]
        rcases victimLoop_mem cfg A ts k (i + 1) i (ts i) with h | ⟨j, hj, hr⟩
        · rw [h]
          exact Or.inr ⟨0, Nat.succ_pos k, by omega⟩
        · rw [hr]
          exact Or.inr ⟨j + 1, Nat.succ_lt_succ hj, by omega⟩
      · rw [if_neg hc]
        rcases victimLoop_mem cfg A ts k (i + 1) maxIdx maxTs with h | ⟨j, hj, hr⟩
        · rw [h]
          exact Or.inl rfl
        · rw [hr]
          exact Or.inr ⟨j + 1, Nat.succ_lt_succ hj, by omega⟩

/-- The victim picked for a set is one of the set's slots. -/
theorem findVictim_mem (cfg : Config) (A ts : Nat → Nat) (set : Nat)
    (hW : 1 ≤ cfg.WAYS) :
    set * cfg.WAYS ≤ findVictim cfg A ts set ∧
    findVictim cfg A ts set < set * cfg.WAYS + cfg.WAYS := by
  unfold findVictim
  rcases victimLoop_mem cfg A ts (cfg.WAYS - 1) (set * cfg.WAYS + 1)
      (set * cfg.WAYS) (ts (set * cfg.WAYS)) with h | ⟨j, hj, hr⟩
  · rw [h]
    omega
  · rw [hr]
    omega

/-- A slot index lies in the range of at most one set. -/
theorem set_of_slot_unique (W s u v : Nat) (h1 : s * W ≤ v) (h2 : v < s * W + W)
    (h3 : u * W ≤ v) (h4 : v < u * W + W) : s = u := by
  rcases Nat.lt_trichotomy s u with h | h | h
  · exfalso
    have h5 : (s + 1) * W ≤ u * W := Nat.mul_le_mul_right W h
    rw [Nat.succ_mul] at h5
    omega
  · exact h
  · exfalso
    have h5 : (u + 1) * W ≤ s * W := Nat.mul_le_mul_right W h
    rw [Nat.succ_mul] at h5
    omega

/-- Installing a line whose tag missed in its set preserves the
no-duplicate-residency invariant, provided the victim slot lies in the
set (which `findVictim` guarantees whenever the set has slots at all). -/
theorem noDup_install (cfg : Config) (st : CacheState) (tag set v : Nat)
    (hN : NoDupResidency cfg st)
    (hm : findMatch cfg st.tagarray tag set = none)
    (hvmem : 1 ≤ cfg.WAYS → set * cfg.WAYS ≤ v ∧ v < set * cfg.WAYS + cfg.WAYS) :
    NoDupResidency cfg
      { st with tagarray := fun i =>
          if i = v then (tag <<< cfg.L2LINESZ) ||| 1 else st.tagarray i } := by
  have hent0 : ∀ p, p ≠ v →
      ({ st with tagarray := fun i =>
          if i = v then (tag <<< cfg.L2LINESZ) ||| 1 else st.tagarray i }
        : CacheState).tagarray p = st.tagarray p := by
    intro p hp
    simp [hp]
  have hentv :
      ({ st with tagarray := fun i =>
          if i = v then (tag <<< cfg.L2LINESZ) ||| 1 else st.tagarray i }
        : CacheState).tagarray v = (tag <<< cfg.L2LINESZ) ||| 1 := by
    simp
  have key : ∀ s2 t2 j,
      residentTag cfg
        { st with tagarray := fun i =>
            if i = v then (tag <<< cfg.L2LINESZ) ||| 1 else st.tagarray i }
        s2 t2 v →
      residentTag cfg
        { st with tagarray := fun i =>
            if i = v then (tag <<< cfg.L2LINESZ) ||| 1 else st.tagarray i }
        s2 t2 j →
      j ≠ v → False := by
    intro s2 t2 j hi hj hjv
    obtain ⟨hi1, hi2, hi3, hi4⟩ := hi
    obtain ⟨hj1, hj2, hj3, hj4⟩ := hj
    rw [hentv] at hi3 hi4
    rw [hent0 j hjv] at hj3 hj4
    by_cases hL : cfg.L2LINESZ = 0
    · have hmask : stateMask cfg = 0 := by simp [stateMask, hL]
      rw [hmask, Nat.and_zero] at hi4
      exact hi4 rfl
    · have htag : t2 = tag := by rw [← hi3, install_shiftRight cfg tag hL]
      have hW : 1 ≤ cfg.WAYS := by omega
      obtain ⟨hv1, hv2⟩ := hvmem hW
      have hs : s2 = set := set_of_slot_unique cfg.WAYS s2 set v hi1 hi2 hv1 hv2
      rw [hs] at hj1 hj2
      have hcontra := matchLoop_none_elim cfg st.tagarray tag cfg.WAYS
        (set * cfg.WAYS) hm (j - set * cfg.WAYS) (by omega)
      apply hcontra
      have h7 : set * cfg.WAYS + (j - set * cfg.WAYS) = j := by omega
      rw [h7]
      exact ⟨htag ▸ hj3, hj4⟩
  intro s t i j hi hj
  by_cases hiv : i = v <;> by_cases hjv : j = v
  · rw [hiv, hjv]
  · exact absurd (key s t j (hiv ▸ hi) hj hjv) not_false
  · exact absurd (key s t i (hjv ▸ hj) hi hiv) not_false
  · obtain ⟨hi1, hi2, hi3, hi4⟩ := hi
    obtain ⟨hj1, hj2, hj3, hj4⟩ := hj
    rw [hent0 i hiv] at hi3 hi4
    rw [hent0 j hjv] at hj3 hj4
    exact hN s t i j ⟨hi1, hi2, hi3, hi4⟩ ⟨hj1, hj2, hj3, hj4⟩

/-- `access` preserves the no-duplicate-residency invariant. -/
theorem noDup_access (cfg : Config) (st : CacheState) (addr : Nat) (wr : Bool)
    (out : AccessOut) (hN : NoDupResidency cfg st)
    (h : access cfg st addr wr = some out) : NoDupResidency cfg out.st := by
  cases hm : findMatch cfg st.tagarray (tagOf cfg addr) (setOf cfg addr) with
  | some idx =>
    rw [access_hit_eq cfg st addr wr idx hm] at h
    rcases Option.map_eq_some'.mp h with ⟨st2, hu, hout⟩
    subst hout
    have hne : st.tsmax (setOf cfg addr) ≠ TIMESTAMP_MAX := by
      intro heq
      rw [updateRepl_eq_none { st with accesses := st.accesses + 1 } _ _ heq] at hu
      exact Option.noConfusion hu
    rw [updateRepl_eq_some { st with accesses := st.accesses + 1 } _ _ hne] at hu
    have hst2 := Option.some.inj hu
    subst hst2
    exact fun s t i j hi hj => hN s t i j hi hj
  | none =>
    rw [access_miss_eq cfg st addr wr hm] at h
    rcases Option.map_eq_some'.mp h with ⟨st3, hu, hout⟩
    subst hout
    have hne : st.tsmax (setOf cfg addr) ≠ TIMESTAMP_MAX := by
      intro heq
      rw [updateRepl_eq_none
        { st with accesses := st.accesses + 1, misses := st.misses + 1 } _ _ heq] at hu
      exact Option.noConfusion hu
    rw [updateRepl_eq_some
      { st with accesses := st.accesses + 1, misses := st.misses + 1 } _ _ hne] at hu
    have hst3 := Option.some.inj hu
    subst hst3
    have h8 := noDup_install cfg st (tagOf cfg addr) (setOf cfg addr)
      (findVictim cfg st.tagarray st.tsarray (setOf cfg addr)) hN hm
      (findVictim_mem cfg st.tagarray st.tsarray (setOf cfg addr))
    exact fun s t i j hi hj => h8 s t i j hi hj

/-- `invalidate` preserves the no-duplicate-residency invariant. -/
theorem noDup_invalidate (cfg : Config) (st : CacheState) (X : Nat)
    (hN : NoDupResidency cfg st) :
    NoDupResidency cfg (invalidate cfg st X).1 := by
  have hent : ∀ p, (invalidate cfg st X).1.tagarray p &&& stateMask cfg ≠ 0 →
      (invalidate cfg st X).1.tagarray p = st.tagarray p := by
    intro p hp
    rw [invalidate_tagarray] at hp ⊢
    by_cases hc : setOf cfg X * cfg.WAYS ≤ p ∧
        p < setOf cfg X * cfg.WAYS + cfg.WAYS ∧
        st.tagarray p >>> cfg.L2LINESZ = tagOf cfg X
    · rw [if_pos hc, Nat.zero_and] at hp
      exact absurd rfl hp
    · rw [if_neg hc]
  intro s t i j hi hj
  obtain ⟨hi1, hi2, hi3, hi4⟩ := hi
  obtain ⟨hj1, hj2, hj3, hj4⟩ := hj
  rw [hent i hi4] at hi3 hi4
  rw [hent j hj4] at hj3 hj4
  exact hN s t i j ⟨hi1, hi2, hi3, hi4⟩ ⟨hj1, hj2, hj3, hj4⟩

/-- A fresh cache has no valid lines at all. -/
theorem noDup_init (cfg : Config) : NoDupResidency cfg initState := by
  intro s t i j hi _
  obtain ⟨_, _, _, h4⟩ := hi
  exact absurd (Nat.zero_and _) h4

theorem noDup_step (cfg : Config) (st st1 : CacheState) (op : Op)
    (hN : NoDupResidency cfg st) (h : step cfg st op = some st1) :
    NoDupResidency cfg st1 := by
  cases op with
  | acc a w =>
    unfold step at h
    rcases Option.map_eq_some'.mp h with ⟨out, hacc, hout⟩
    subst hout
    exact noDup_access cfg st a w out hN hacc
  | inv a =>
    unfold step at h
    have h2 := Option.some.inj h
    subst h2
    exact noDup_invalidate cfg st a hN

theorem noDup_run (cfg : Config) :
    ∀ (ops : List Op) (st st1 : CacheState), NoDupResidency cfg st →
      run cfg st ops = some st1 → NoDupResidency cfg st1
  | [], st, st1, hN, h => by
    have h2 := Option.some.inj h
    subst h2
    exact hN
  | op :: ops, st, st1, hN, h => by
    unfold run at h
    rcases Option.bind_eq_some.mp h with ⟨st2, hstep, hrun⟩
    exact noDup_run cfg ops st2 st1 (noDup_step cfg st st2 op hN hstep) hrun

/-- C7: in any state reached from the freshly initialized cache by a
sequence of `access`/`invalidate` calls, every address tag is validly
resident in at most one slot of its set (no duplicate residency), and every
set holds at most `WAYS` resident lines. -/
theorem C7_no_duplicate_residency (cfg : Config) (ops : List Op) (st : CacheState)
    (h : run cfg initState ops = some st) :
    (∀ s t i j, residentTag cfg st s t i → residentTag cfg st s t j → i = j) ∧
    (∀ s, ((Finset.range cfg.WAYS).filter
        (fun w => st.tagarray (s * cfg.WAYS + w) &&& stateMask cfg ≠ 0)).card ≤
      cfg.WAYS) := by
  refine ⟨noDup_run cfg ops initState st (noDup_init cfg) h, ?_⟩
  intro s
  have h1 := Finset.card_filter_le (Finset.range cfg.WAYS)
    (fun w => st.tagarray (s * cfg.WAYS + w) &&& stateMask cfg ≠ 0)
  rwa [Finset.card_range] at h1

/-- A concrete operation sequence for instantiating C7. -/
def opsC7W : List Op := [Op.acc 64 false, Op.acc 128 false, Op.inv 64]

/-- Instantiation of C7 on a concrete run. -/
theorem C7_no_duplicate_residency_witness :
    (run cfgC1 initState opsC7W).all
      (fun st => decide (((Finset.range cfgC1.WAYS).filter
        (fun w => st.tagarray (0 * cfgC1.WAYS + w) &&& stateMask cfgC1 ≠ 0)).card ≤
          cfgC1.WAYS)) = true := by
  obtain ⟨st, hst⟩ : ∃ st, run cfgC1 initState opsC7W = some st := ⟨_, rfl⟩
  rw [hst]
  exact decide_eq_true ((C7_no_duplicate_residency cfgC1 opsC7W st hst).2 0)

/-- Instantiation of C4 on a concrete input: invalidating address 64
clears the matching valid line in way 1 and leaves `misses` unchanged. -/
theorem C4_invalidate_contract_witness :
    (invalidate cfgC1 stWayZeroEmpty 64).1.tagarray 1 = 0 ∧
    (invalidate cfgC1 stWayZeroEmpty 64).1.misses = stWayZeroEmpty.misses := by
  have h := C4_invalidate_contract cfgC1 stWayZeroEmpty 64
  exact ⟨h.1 1 (by decide) (by decide) (by decide), h.2.2.2.1⟩

/-- Instantiation of C5 on a concrete input: a miss on address 5 with
64-byte lines reaches the lower level as one access to address 0. -/
theorem C5_miss_propagation_witness :
    (access cfgC3 initState 5 false).map AccessOut.lowerCalls = some [(0, false)] := by
  obtain ⟨out, hacc⟩ : ∃ o, access cfgC3 initState 5 false = some o := ⟨_, rfl⟩
  have hhit : out.hit = false := by
    have e1 : (access cfgC3 initState 5 false).map AccessOut.hit = some out.hit := by
      rw [hacc]
      rfl
    have e2 : (access cfgC3 initState 5 false).map AccessOut.hit = some false := rfl
    exact Option.some.inj (e1.symm.trans e2)
  have h := C5_miss_propagation cfgC3 initState 5 false out hacc
  rw [hacc, Option.map_some', (h.2 hhit).1]
  rfl

/-- A state whose only set has a saturated timestamp counter. -/
def stCounterSaturated : CacheState :=
  { initState with tsmax := fun _ => TIMESTAMP_MAX }

/-- Instantiation of C6 on concrete inputs: from the fresh state an access
bumps the set counter from 0 to 1; from a saturated counter it aborts. -/
theorem C6_timestamp_witness :
    (∃ out, access cfgC3 initState 0 false = some out ∧
      out.st.tsmax (setOf cfgC3 0) = initState.tsmax (setOf cfgC3 0) + 1) ∧
    access cfgC3 stCounterSaturated 0 false = none := by
  constructor
  · exact (C6_timestamp_increase_and_overflow_abort cfgC3 initState 0 false).1
      (by decide)
  · exact (C6_timestamp_increase_and_overflow_abort cfgC3 stCounterSaturated
      0 false).2 rfl

/-- Instantiation of C8 on a concrete input: the second access to address 0
hits. -/
theorem C8_hit_frame_witness :
    ((access cfgC3 initState 0 false).bind
      (fun o1 => access cfgC3 o1.st 0 false)).map AccessOut.hit = some true := by
  obtain ⟨o1, h1⟩ : ∃ o, access cfgC3 initState 0 false = some o := ⟨_, rfl⟩
  rw [h1]
  show (access cfgC3 o1.st 0 false).map AccessOut.hit = some true
  have hm : findMatch cfgC3 o1.st.tagarray (tagOf cfgC3 0) (setOf cfgC3 0) =
      some 0 := by
    have e1 : (access cfgC3 initState 0 false).map
        (fun o => findMatch cfgC3 o.st.tagarray (tagOf cfgC3 0) (setOf cfgC3 0)) =
        some (findMatch cfgC3 o1.st.tagarray (tagOf cfgC3 0) (setOf cfgC3 0)) := by
      rw [h1]
      rfl
    have e2 : (access cfgC3 initState 0 false).map
        (fun o => findMatch cfgC3 o.st.tagarray (tagOf cfgC3 0) (setOf cfgC3 0)) =
        some (some 0) := rfl
    exact Option.some.inj (e1.symm.trans e2)
  obtain ⟨o2, h2⟩ : ∃ o, access cfgC3 o1.st 0 false = some o := by
    have e3 : access cfgC3 o1.st 0 false =
        (access cfgC3 initState 0 false).bind
          (fun o => access cfgC3 o.st 0 false) := by
      rw [h1]
      rfl
    rw [e3]
    exact ⟨_, rfl⟩
  rw [h2, Option.map_some',
    (C8_hit_frame cfgC3 o1.st 0 false 0 o2 hm h2).1]

/-- Instantiation of C10 on a concrete input: a read and a write of
address 7 from the fresh state produce the same cache state, outcome and
lower-level addresses. -/
theorem C10_write_flag_noninterference_witness :
    ((access cfgC3 initState 7 true).map (fun o => (o.st, o.hit)) =
      (access cfgC3 initState 7 false).map (fun o => (o.st, o.hit))) ∧
    ((access cfgC3 initState 7 true).map (fun o => o.lowerCalls.map Prod.fst) =
      (access cfgC3 initState 7 false).map (fun o => o.lowerCalls.map Prod.fst)) := by
  have h := C10_write_flag_noninterference cfgC3 initState 7
  refine ⟨h.1, ?_⟩
  obtain ⟨o1, h1⟩ : ∃ o, access cfgC3 initState 7 true = some o := ⟨_, rfl⟩
  obtain ⟨o2, h2⟩ : ∃ o, access cfgC3 initState 7 false = some o := ⟨_, rfl⟩
  rw [h1, h2, Option.map_some', Option.map_some']
  exact congrArg some (h.2 o1 o2 h1 h2).1

end Qcache.Cache

